import Mathlib

set_option linter.unusedVariables false

/-!
Shallow embedding of the sofa_live acquisition pipeline.

The Python sources embedded here:
  * `src/scrapers/api_scraper.py` — `fetch_live_and_upcoming_matches`
  * `src/utils/extractors.py` — `extract_matches_from_api_response`,
    `extract_matches_from_page` (the JavaScript evaluated in the page)
  * `src/scrapers/network_capture.py` — the dedup-and-limit loop of
    `fetch_matches_with_cookies` (lines 90-101)
  * `src/scrapers/browser_scraper.py` — the truncation at line 59
  * `src/utils/captcha_handler.py` — `is_captcha_present`,
    `wait_for_captcha_solution`

External collaborators (HTTP client, Playwright page, the operator's
keyboard) are modelled as explicit inputs: an endpoint either fails
(`none`) or yields a parsed JSON response; a page is a snapshot of what
the code queries from it.  JSON objects of the API schema are modelled
with `Option` fields for presence, and a primitive value type `JPrim`
for fields that can be numeric or string (ids, timestamps).
-/

/-- A primitive JSON value as it matters to the scraper: a (integer)
number or a string.  Python equality on these never identifies a number
with a string, which `DecidableEq` on the two constructors reflects. -/
inductive JPrim where
  | num : Int → JPrim
  | str : String → JPrim
deriving DecidableEq, Repr

/-- Python truthiness of an id value: `not ev_id` is true for `0` and
for the empty string. -/
def JPrim.truthy : JPrim → Bool
  | .num n => n != 0
  | .str s => s != ""

/-- Python string interpolation of the id into the event URL. -/
def JPrim.render : JPrim → String
  | .num n => toString n
  | .str s => s

/-- The `homeTeam` / `awayTeam` JSON object: may lack a `name` entry. -/
structure TeamObj where
  name : Option String
deriving DecidableEq, Repr

/-- The `tournament` JSON object nested in an event. -/
structure TournObj where
  name : Option String
deriving DecidableEq, Repr

/-- The `status` JSON object nested in an event. -/
structure StatusObj where
  description : Option String
deriving DecidableEq, Repr

/-- A raw API event object; every field the scraper reads is optional,
mirroring `dict.get` on the parsed JSON. -/
structure RawEvent where
  id : Option JPrim
  homeTeam : Option TeamObj
  awayTeam : Option TeamObj
  tournament : Option TournObj
  startTimestamp : Option JPrim
  status : Option StatusObj
deriving DecidableEq, Repr

/-- One tournament container of the nested `sportItem` response shape. -/
structure Tournament where
  events : Option (List RawEvent)
deriving DecidableEq, Repr

/-- The `sportItem` object of the nested response shape. -/
structure SportItem where
  tournaments : Option (List Tournament)
deriving DecidableEq, Repr

/-- A parsed JSON body returned by an API endpoint: it may carry a
top-level `events` array, a nested `sportItem`, both, or neither. -/
structure ApiResponse where
  events : Option (List RawEvent)
  sportItem : Option SportItem
deriving DecidableEq, Repr

/-- The canonical output record.  All six fields are total strings:
the Python code builds the dict literal with all six keys on every
append, so absence of a field is not representable. -/
structure Match where
  url : String
  home_team : String
  away_team : String
  tournament : String
  start_time : String
  status : String
deriving DecidableEq, Repr

/-- Zero-padding to two digits, as `strftime` does for month, day,
hour, minute and second. -/
def pad2 (n : Nat) : String :=
  if n < 10 then "0" ++ toString n else toString n

/-- Zero-padding of the year to four digits. -/
def pad4 (n : Nat) : String :=
  if n < 10 then "000" ++ toString n
  else if n < 100 then "00" ++ toString n
  else if n < 1000 then "0" ++ toString n
  else toString n

/-- Civil date from a day count relative to 1970-01-01 (proleptic
Gregorian calendar, clamped at year 0). -/
def civilFromDays (z0 : Int) : Nat × Nat × Nat :=
  let z := z0 + 719468
  let era := z.fdiv 146097
  let doe := (z - era * 146097).toNat
  let yoe := (doe - doe / 1460 + doe / 36524 - doe / 146096) / 365
  let doy := doe - (365 * yoe + yoe / 4 - yoe / 100)
  let mp := (5 * doy + 2) / 153
  let d := doy - (153 * mp + 2) / 5 + 1
  let m := if mp < 10 then mp + 3 else mp - 9
  let y := (era * 400 + (yoe : Int) + (if m ≤ 2 then 1 else 0)).toNat
  (y, m, d)

/-- The `datetime.fromtimestamp(ts).strftime("%Y-%m-%d %H:%M:%S")`
formatting of an epoch-seconds value, modelled in UTC (the wall-clock
timezone of the host is an environment detail outside the embedding);
total, where CPython could raise on timestamps outside the platform
range. -/
def fmtTimestamp (ts : Int) : String :=
  let days := ts.fdiv 86400
  let sod := (ts - days * 86400).toNat
  let ymd := civilFromDays days
  let hh := sod / 3600
  let mm := sod / 60 % 60
  let ss := sod % 60
  pad4 ymd.1 ++ "-" ++ pad2 ymd.2.1 ++ "-" ++ pad2 ymd.2.2 ++ " " ++
    pad2 hh ++ ":" ++ pad2 mm ++ ":" ++ pad2 ss

/-- The per-event record construction shared verbatim by
`api_scraper.fetch_live_and_upcoming_matches` (lines 94-112) and
`extractors.extract_matches_from_api_response` (lines 184-205):
each `ev.get(...).get(..., default)` chain becomes `Option` traversal
with the same default.  `i` is the already-extracted truthy id
(`ev_id` in the source). -/
def mkApiMatch (i : JPrim) (ev : RawEvent) : Match :=
  let home := ((ev.homeTeam.getD ⟨none⟩).name).getD "Unknown"
  let away := ((ev.awayTeam.getD ⟨none⟩).name).getD "Unknown"
  let tour := ((ev.tournament.getD ⟨none⟩).name).getD "Unknown"
  let start :=
    match ev.startTimestamp with
    | some (.num n) => fmtTimestamp n
    | _ => "Unknown"
  let st := ((ev.status.getD ⟨none⟩).description).getD "Scheduled"
  { url := "https://www.sofascore.com/event/" ++ i.render
    home_team := home
    away_team := away
    tournament := tour
    start_time := start
    status := st }

/-- Mutable state of the API probe: the `seen_ids` set (kept as the
list of accepted ids, most recent first) and the accumulated `matches`
list. -/
structure ProbeState where
  seen : List JPrim
  matchesAcc : List Match
deriving DecidableEq, Repr

/-- The inner `for ev in events` loop of
`fetch_live_and_upcoming_matches` (lines 87-115): skip events with an
absent or falsy or already-seen id, otherwise record the id, append the
match, and signal an early `return` the moment the accumulated count
reaches `limit`.  The boolean of the result is that early-return
signal. -/
def runEvents (limit : Nat) (s : ProbeState) : List RawEvent → ProbeState × Bool
  | [] => (s, false)
  | ev :: rest =>
    match ev.id with
    | none => runEvents limit s rest
    | some i =>
      if !i.truthy || s.seen.contains i then runEvents limit s rest
      else
        let s' : ProbeState := ⟨i :: s.seen, s.matchesAcc ++ [mkApiMatch i ev]⟩
        if limit ≤ s'.matchesAcc.length then (s', true)
        else runEvents limit s' rest

/-- Event-list extraction of `api_scraper.py` lines 79-83:
`events = data.get("events", [])`, then if that list is empty (absent
key or present-but-empty) and a `sportItem` key exists, the nested
tournament events are concatenated in. -/
def apiEventsOf (d : ApiResponse) : List RawEvent :=
  let evs := d.events.getD []
  if evs.isEmpty && d.sportItem.isSome then
    match d.sportItem with
    | some si => (si.tournaments.getD []).foldl (fun acc t => acc ++ t.events.getD []) []
    | none => []
  else evs

/-- The endpoint loop of `fetch_live_and_upcoming_matches` (lines
52-118): a failing endpoint (`none`, any exception in the `try` body)
is skipped; a successful one contributes its extracted events through
`runEvents`; the early-return signal aborts all remaining endpoints.
The boolean of the result records whether the early return fired. -/
def runEndpoints (limit : Nat) (s : ProbeState) : List (Option ApiResponse) → ProbeState × Bool
  | [] => (s, false)
  | none :: rest => runEndpoints limit s rest
  | some resp :: rest =>
    let r := runEvents limit s (apiEventsOf resp)
    if r.2 then (r.1, true) else runEndpoints limit r.1 rest

/-- `api_scraper.fetch_live_and_upcoming_matches`, with the HTTP layer
abstracted into the list of per-endpoint outcomes (a failed endpoint is
`none`).  Starts from an empty `seen_ids` set and empty `matches`. -/
def fetch_live_and_upcoming_matches (endpoints : List (Option ApiResponse)) (limit : Nat) : List Match :=
  (runEndpoints limit ⟨[], []⟩ endpoints).1.matchesAcc

/-- Event-list extraction of `extractors.extract_matches_from_api_response`
(lines 163-174): the nested `sportItem` shape is consulted only when the
top-level `events` KEY is absent (an `elif`), and only when `sportItem`
carries a `tournaments` key. -/
def extractorEventsOf (d : ApiResponse) : List RawEvent :=
  match d.events with
  | some l => l
  | none =>
    match d.sportItem with
    | some si =>
      match si.tournaments with
      | some ts => ts.foldl (fun acc t => acc ++ t.events.getD []) []
      | none => []
    | none => []

/-- The event loop of `extract_matches_from_api_response` (lines
177-205): same skip condition and record construction as the probe's
inner loop, but with no limit and no early return. -/
def processEvents (s : ProbeState) : List RawEvent → ProbeState
  | [] => s
  | ev :: rest =>
    match ev.id with
    | none => processEvents s rest
    | some i =>
      if !i.truthy || s.seen.contains i then processEvents s rest
      else processEvents ⟨i :: s.seen, s.matchesAcc ++ [mkApiMatch i ev]⟩ rest

/-- `extractors.extract_matches_from_api_response` (lines 150-207). -/
def extract_matches_from_api_response (d : ApiResponse) : List Match :=
  (processEvents ⟨[], []⟩ (extractorEventsOf d)).matchesAcc

/-- The dedup-and-limit loop closing `network_capture.fetch_matches_with_cookies`
(lines 90-101): walk the collected matches, drop a match whose URL was
already seen, otherwise record the URL, append the match, and `break`
the moment the accumulated count reaches `limit`. -/
def dedupLimitAux (limit : Nat) (seen_urls : List String) (unique : List Match) : List Match → List Match
  | [] => unique
  | m :: rest =>
    if seen_urls.contains m.url then dedupLimitAux limit seen_urls unique rest
    else
      let unique' := unique ++ [m]
      if limit ≤ unique'.length then unique'
      else dedupLimitAux limit (m.url :: seen_urls) unique' rest

/-- `network_capture.fetch_matches_with_cookies`, reduced to its
Match-producing core: the matches collected from the page (browser
side effects abstracted into the input list) deduplicated by URL with
the limit cut-off. -/
def fetch_matches_with_cookies (limit : Nat) (collected : List Match) : List Match :=
  dedupLimitAux limit [] [] collected

/-- `browser_scraper.fetch_matches_with_browser`, reduced to its
Match-producing core (line 59): `matches.extend(matches_data[:limit])`
starting from an empty list. -/
def fetch_matches_with_browser (limit : Nat) (matches_data : List Match) : List Match :=
  matches_data.take limit

/-- The canonical first-occurrence filter by URL: the reference point
for the first-seen-order property of the deduplicator. -/
def dedupFirstAux (seen_urls : List String) : List Match → List Match
  | [] => []
  | m :: rest =>
    if seen_urls.contains m.url then dedupFirstAux seen_urls rest
    else m :: dedupFirstAux (m.url :: seen_urls) rest

/-- First-occurrence filter by URL starting from nothing seen. -/
def dedupFirst (ms : List Match) : List Match :=
  dedupFirstAux [] ms

/-!  DOM-shape extraction: the JavaScript evaluated by
`extractors.extract_matches_from_page` (lines 41-148).  A container is
a snapshot of everything that code reads from a DOM node; matched
elements are represented by their raw text content (`getText` then
trims them), an absent element by `none` / an empty query result. -/

/-- A candidate match container as the extraction JavaScript sees it. -/
structure DomContainer where
  /-- The container is itself an anchor with a truthy href containing
  the `/event/` path (the combined condition of line 79). -/
  isEventAnchor : Bool
  /-- The container's own `href`. -/
  ownHref : String
  /-- The `href` of the first descendant matched by the event-link
  selector, when one exists. -/
  descendantEventHref : Option String
  /-- `querySelectorAll`: raw text of every element a selector matches. -/
  queryAll : String → List String
  /-- `querySelector`: raw text of the first element a selector
  matches, when one exists. -/
  queryOne : String → Option String

/-- The `trySelectors` helper (lines 48-56): first selector whose
`querySelectorAll` result is nonempty wins; otherwise an empty list. -/
def trySelectors (c : DomContainer) : List String → List String
  | [] => []
  | sel :: rest =>
    let els := c.queryAll sel
    if els.isEmpty then trySelectors c rest else els

/-- The single-element selector loop used for tournament, start time
and status (for example lines 104-110): first selector with a
`querySelector` hit wins. -/
def firstQuery (c : DomContainer) : List String → Option String
  | [] => none
  | sel :: rest =>
    match c.queryOne sel with
    | some el => some el
    | none => firstQuery c rest

/-- `SELECTORS["team_names"]` from `config.py`. -/
def team_names_selectors : List String :=
  [".teamName", ".team-name", "[data-home-team]", "[data-away-team]",
   ".participant__participantName"]

/-- `SELECTORS["tournament"]` from `config.py`. -/
def tournament_selectors : List String :=
  [".tournament", ".tournament-name", "[data-tournament]", ".event__title--name"]

/-- `SELECTORS["start_time"]` from `config.py`. -/
def start_time_selectors : List String :=
  [".time", ".event__time", "[data-starttime]"]

/-- `SELECTORS["status"]` from `config.py`. -/
def status_selectors : List String :=
  [".status", ".event__status", "[data-status]"]

/-- URL resolution for a container (lines 78-86): its own href when it
is a qualifying anchor, else the first qualifying descendant anchor's
href, else nothing. -/
def containerUrl (c : DomContainer) : Option String :=
  if c.isEventAnchor then some c.ownHref else c.descendantEventHref

/-- The per-container field resolution of the extraction JavaScript
(lines 91-141): team names from the first nonempty team-selector match
(needs at least two elements, else both stay "Unknown"), tournament /
start time / status from their selector lists with their defaults, each
resolved text trimmed. -/
def mkDomMatch (url : String) (c : DomContainer) : Match :=
  let teams := trySelectors c team_names_selectors
  let home := match teams with
    | t0 :: _ :: _ => t0.trim
    | _ => "Unknown"
  let away := match teams with
    | _ :: t1 :: _ => t1.trim
    | _ => "Unknown"
  let tour := ((firstQuery c tournament_selectors).map String.trim).getD "Unknown"
  let stime := ((firstQuery c start_time_selectors).map String.trim).getD "Unknown"
  let st := ((firstQuery c status_selectors).map String.trim).getD "Scheduled"
  { url := url
    home_team := home
    away_team := away
    tournament := tour
    start_time := stime
    status := st }

/-- The container loop of the extraction JavaScript (lines 72-145):
containers without a resolvable truthy URL, or whose URL was already
seen in this call, are skipped; the rest are normalized in order. -/
def extractDomAux (seen : List String) (acc : List Match) : List DomContainer → List Match
  | [] => acc
  | c :: rest =>
    match containerUrl c with
    | none => extractDomAux seen acc rest
    | some url =>
      if url == "" || seen.contains url then extractDomAux seen acc rest
      else extractDomAux (url :: seen) (acc ++ [mkDomMatch url c]) rest

/-- `extractors.extract_matches_from_page`, with the pooled container
list (all selector patterns concatenated, line 62-68) as input. -/
def extract_matches_from_page (containers : List DomContainer) : List Match :=
  extractDomAux [] [] containers

/-!  CAPTCHA gate: `utils/captcha_handler.py`. -/

/-- Everything `is_captcha_present` reads from the page: which
selectors match, the title, the full text content. -/
structure PageSnapshot where
  hasSelector : String → Bool
  title : String
  content : String

/-- `SELECTORS["captcha"]` from `config.py`. -/
def captcha_selectors : List String :=
  ["iframe[src*=\x27captcha\x27]", "iframe[src*=\x27recaptcha\x27]",
   "iframe[src*=\x27cloudflare\x27]", ".captcha-container", "#captcha",
   "div.g-recaptcha", "div[class*=\x27captcha\x27]"]

/-- The title phrases of `is_captcha_present` (line 31). -/
def captcha_title_terms : List String :=
  ["captcha", "security check", "cloudflare", "human verification"]

/-- The content phrases of `is_captcha_present` (lines 37-47). -/
def captcha_content_terms : List String :=
  ["captcha", "security check", "cloudflare", "verify you are human",
   "bot protection", "prove you are human", "complete the security check",
   "access denied", "ddos protection"]

/-- Whether `pat` occurs at the head of `l`. -/
def startsWithL : List Char → List Char → Bool
  | [], _ => true
  | _ :: _, [] => false
  | a :: as, b :: bs => a == b && startsWithL as bs

/-- Whether `pat` occurs anywhere in `l` (Python `pat in s`). -/
def containsSubL (pat : List Char) : List Char → Bool
  | [] => pat.isEmpty
  | a :: rest => startsWithL pat (a :: rest) || containsSubL pat rest

/-- Python substring test `term in hay`. -/
def containsSub (hay term : String) : Bool :=
  containsSubL term.data hay.data

/-- Python `str.lower()` (ASCII-relevant part; every configured phrase
is ASCII). -/
def lowerStr (s : String) : String :=
  s.map Char.toLower

/-- `captcha_handler.is_captcha_present` (lines 14-51): any matching
challenge selector, else any challenge phrase in the lower-cased title,
else any challenge phrase in the lower-cased content, else false. -/
def is_captcha_present (p : PageSnapshot) : Bool :=
  if captcha_selectors.any p.hasSelector then true
  else if captcha_title_terms.any (fun t => containsSub (lowerStr p.title) t) then true
  else if captcha_content_terms.any (fun t => containsSub (lowerStr p.content) t) then true
  else false

/-- The three independent detection signals, named for the statement of
the disjunction property. -/
def selectorSignal (p : PageSnapshot) : Bool :=
  captcha_selectors.any p.hasSelector

/-- Title signal: some challenge phrase occurs in the lower-cased title. -/
def titleSignal (p : PageSnapshot) : Bool :=
  captcha_title_terms.any (fun t => containsSub (lowerStr p.title) t)

/-- Content signal: some challenge phrase occurs in the lower-cased
page content. -/
def contentSignal (p : PageSnapshot) : Bool :=
  captcha_content_terms.any (fun t => containsSub (lowerStr p.content) t)

/-- Outcome of `wait_for_captcha_solution`: `True` / `False` in the
source. -/
inductive ResolutionOutcome where
  | Solved
  | TimedOut
deriving DecidableEq, Repr

/-- The external world of `wait_for_captcha_solution`, on a discrete
clock of 0.1-second ticks (the polling period of the wait loop):
whether the operator has pressed Enter by a given tick, whether
`is_captcha_present` still holds when re-checked at a given tick, and
how many ticks `wait_for_load_state` consumes when entered at a given
tick. -/
structure CaptchaEnv where
  solved : Nat → Bool
  stillPresent : Nat → Bool
  loadDelay : Nat → Nat

/-- First tick within the remaining budget at which the polling loop
observes the solved flag (the `while` loop of lines 91-105). -/
def firstSolvedTick (env : CaptchaEnv) (start budget : Nat) : Option Nat :=
  (List.range budget).find? (fun t => env.solved (start + t))

/-- Ticks consumed by one solved-signal handling attempt observed at
relative tick `t`: the unconditional 2-second sleep (20 ticks) plus the
`wait_for_load_state` delay of the environment. -/
def captchaElapsed (env : CaptchaEnv) (start t : Nat) : Nat :=
  t + 20 + env.loadDelay (start + t)

/-- `captcha_handler.wait_for_captcha_solution` (lines 53-108) on the
discrete clock: poll until the solved signal or until `budget` ticks
elapse; on a signal, sleep 2 s (20 ticks) plus the load wait, re-run
the detection, and when the challenge persists recurse with the budget
decremented by the total elapsed time (line 102); on timeout return
`TimedOut`. -/
def wait_for_captcha_solution (env : CaptchaEnv) (start budget : Nat) : ResolutionOutcome :=
  match h : firstSolvedTick env start budget with
  | none => .TimedOut
  | some t =>
    if env.stillPresent (start + captchaElapsed env start t) then
      wait_for_captcha_solution env (start + captchaElapsed env start t)
        (budget - captchaElapsed env start t)
    else .Solved
termination_by budget
decreasing_by
  have ht : t ∈ List.range budget := List.mem_of_find?_eq_some h
  have ht' : t < budget := List.mem_range.mp ht
  simp only [captchaElapsed]
  omega

/-- Ticks spent actively polling for the solved signal, summed over all
recursive attempts of `wait_for_captcha_solution`. -/
def captchaActiveWait (env : CaptchaEnv) (start budget : Nat) : Nat :=
  match h : firstSolvedTick env start budget with
  | none => budget
  | some t =>
    if env.stillPresent (start + captchaElapsed env start t) then
      t + captchaActiveWait env (start + captchaElapsed env start t)
        (budget - captchaElapsed env start t)
    else t
termination_by budget
decreasing_by
  have ht : t ∈ List.range budget := List.mem_of_find?_eq_some h
  have ht' : t < budget := List.mem_range.mp ht
  simp only [captchaElapsed]
  omega

/-- Nested event collection of the `sportItem` shape, common reference
point of both extraction variants. -/
def nestedEventsOf (d : ApiResponse) : List RawEvent :=
  match d.sportItem with
  | some si => (si.tournaments.getD []).foldl (fun acc t => acc ++ t.events.getD []) []
  | none => []

/-- The sample event of the spec's scenario: id 42, teams A and B,
tournament Cup, epoch start 1700000000, status Live. -/
def ev42 : RawEvent :=
  { id := some (.num 42)
    homeTeam := some ⟨some "A"⟩
    awayTeam := some ⟨some "B"⟩
    tournament := some ⟨some "Cup"⟩
    startTimestamp := some (.num 1700000000)
    status := some ⟨some "Live"⟩ }

/-- A response carrying `ev42` in a top-level `events` array. -/
def respLive : ApiResponse :=
  { events := some [ev42], sportItem := none }

/-- A response whose top-level `events` array is present but empty while
a populated `sportItem` sits next to it. -/
def respC3 : ApiResponse :=
  { events := some []
    sportItem := some { tournaments := some [{ events := some [ev42] }] } }

/-- The sample event with a falsy (zero) id. -/
def ev0 : RawEvent :=
  { ev42 with id := some (.num 0) }

/-- The Match record the normalizers produce from `ev42`. -/
def match42 : Match :=
  mkApiMatch (.num 42) ev42

/-- Once the early-return flag is set, the accumulated count is exactly
`limit`; while it is not set, the count stays below `limit` (given it
started below). -/
theorem runEvents_bound : ∀ (evs : List RawEvent) (limit : Nat) (s : ProbeState),
    s.matchesAcc.length < limit →
    ((runEvents limit s evs).2 = true ∧ (runEvents limit s evs).1.matchesAcc.length = limit) ∨
    ((runEvents limit s evs).2 = false ∧ (runEvents limit s evs).1.matchesAcc.length < limit) := by
  intro evs
  induction evs with
  | nil =>
    intro limit s h
    right
    exact ⟨rfl, h⟩
  | cons ev rest ih =>
    intro limit s h
    simp only [runEvents]
    split
    · exact ih limit s h
    · split
      · exact ih limit s h
      · split
        · next i hskip hl =>
            left
            refine ⟨rfl, ?_⟩
            simp only [List.length_append, List.length_cons, List.length_nil] at hl ⊢
            omega
        · next i hskip hl =>
            apply ih
            simp only [List.length_append, List.length_cons, List.length_nil] at hl ⊢
            omega

/-- The endpoint loop inherits the count bound: once the early return
fired, exactly `limit` matches are held, otherwise fewer. -/
theorem runEndpoints_bound : ∀ (eps : List (Option ApiResponse)) (limit : Nat) (s : ProbeState),
    s.matchesAcc.length < limit →
    ((runEndpoints limit s eps).2 = true ∧ (runEndpoints limit s eps).1.matchesAcc.length = limit) ∨
    ((runEndpoints limit s eps).2 = false ∧ (runEndpoints limit s eps).1.matchesAcc.length < limit) := by
  intro eps
  induction eps with
  | nil =>
    intro limit s h
    right
    exact ⟨rfl, h⟩
  | cons ep rest ih =>
    intro limit s h
    cases ep with
    | none =>
      simp only [runEndpoints]
      exact ih limit s h
    | some resp =>
      simp only [runEndpoints]
      rcases runEvents_bound (apiEventsOf resp) limit s h with ⟨h2, hlen⟩ | ⟨h2, hlen⟩
      · rw [if_pos h2]
        exact Or.inl ⟨rfl, hlen⟩
      · rw [if_neg (by simp [h2])]
        exact ih limit _ hlen

/-- With `limit = 0` the inner loop either accepts nothing (state
unchanged, no early return) or returns at the very first accepted
event, having appended exactly one match. -/
theorem runEvents_zero : ∀ (evs : List RawEvent) (s : ProbeState),
    ((runEvents 0 s evs).2 = false ∧ (runEvents 0 s evs).1 = s) ∨
    ((runEvents 0 s evs).2 = true ∧
      (runEvents 0 s evs).1.matchesAcc.length = s.matchesAcc.length + 1) := by
  intro evs
  induction evs with
  | nil =>
    intro s
    exact Or.inl ⟨rfl, rfl⟩
  | cons ev rest ih =>
    intro s
    cases hid : ev.id with
    | none =>
      simp only [runEvents, hid]
      exact ih s
    | some i =>
      by_cases hc : (!i.truthy || s.seen.contains i) = true
      · simp only [runEvents, hid, hc, if_true]
        exact ih s
      · simp only [runEvents, hid]
        rw [if_neg hc]
        rw [if_pos (by omega)]
        refine Or.inr ⟨rfl, ?_⟩
        simp [List.length_append]

/-- With `limit = 0` the whole probe accumulates at most one match
beyond its starting state. -/
theorem runEndpoints_zero_len : ∀ (eps : List (Option ApiResponse)) (s : ProbeState),
    (runEndpoints 0 s eps).1.matchesAcc.length ≤ s.matchesAcc.length + 1 := by
  intro eps
  induction eps with
  | nil =>
    intro s
    exact Nat.le_succ _
  | cons ep rest ih =>
    intro s
    cases ep with
    | none =>
      simp only [runEndpoints]
      exact ih s
    | some resp =>
      simp only [runEndpoints]
      rcases runEvents_zero (apiEventsOf resp) s with ⟨h2, hst⟩ | ⟨h2, hlen⟩
      · rw [if_neg (by simp [h2])]
        rw [hst]
        exact ih s
      · rw [if_pos h2]
        exact Nat.le_of_eq hlen

/-- When the limit cannot be reached along a list of events, the
probe's inner loop computes the same state as the extractor's loop. -/
theorem runEvents_eq_processEvents : ∀ (evs : List RawEvent) (limit : Nat) (s : ProbeState),
    s.matchesAcc.length + evs.length ≤ limit →
    (runEvents limit s evs).1 = processEvents s evs := by
  intro evs
  induction evs with
  | nil =>
    intro limit s h
    rfl
  | cons ev rest ih =>
    intro limit s h
    simp only [List.length_cons] at h
    cases hid : ev.id with
    | none =>
      simp only [runEvents, processEvents, hid]
      exact ih limit s (by omega)
    | some i =>
      by_cases hc : (!i.truthy || s.seen.contains i) = true
      · simp only [runEvents, processEvents, hid, hc, if_true]
        exact ih limit s (by omega)
      · simp only [runEvents, processEvents, hid]
        rw [if_neg hc, if_neg hc]
        by_cases hl : limit ≤ (s.matchesAcc ++ [mkApiMatch i ev]).length
        · have hr : rest = [] := by
            simp only [List.length_append, List.length_cons, List.length_nil] at hl
            have : rest.length = 0 := by omega
            exact List.eq_nil_of_length_eq_zero this
          subst hr
          rw [if_pos hl]
          rfl
        · rw [if_neg hl]
          apply ih
          simp only [List.length_append, List.length_cons, List.length_nil]
          omega

/-- Splitting the endpoint list: the run over a concatenation is the
run over the first part, continued over the second only when the early
return has not fired. -/
theorem runEndpoints_append : ∀ (l₁ l₂ : List (Option ApiResponse)) (limit : Nat) (s : ProbeState),
    runEndpoints limit s (l₁ ++ l₂) =
      if (runEndpoints limit s l₁).2 = true then runEndpoints limit s l₁
      else runEndpoints limit (runEndpoints limit s l₁).1 l₂ := by
  intro l₁
  induction l₁ with
  | nil =>
    intro l₂ limit s
    simp [runEndpoints]
  | cons ep rest ih =>
    intro l₂ limit s
    cases ep with
    | none =>
      simp only [List.cons_append, runEndpoints]
      exact ih l₂ limit s
    | some resp =>
      simp only [List.cons_append, runEndpoints]
      by_cases h2 : (runEvents limit s (apiEventsOf resp)).2 = true
      · rw [if_pos h2, if_pos h2]
        simp
      · rw [if_neg h2, if_neg h2]
        exact ih l₂ limit _

/-- The probe's inner loop preserves distinctness of the accepted ids
and the one-to-one pairing of accepted ids with appended matches. -/
theorem runEvents_inv : ∀ (evs : List RawEvent) (limit : Nat) (s : ProbeState),
    s.seen.Nodup → s.seen.length = s.matchesAcc.length →
    (runEvents limit s evs).1.seen.Nodup ∧
    (runEvents limit s evs).1.seen.length = (runEvents limit s evs).1.matchesAcc.length := by
  intro evs
  induction evs with
  | nil =>
    intro limit s h1 h2
    exact ⟨h1, h2⟩
  | cons ev rest ih =>
    intro limit s h1 h2
    cases hid : ev.id with
    | none =>
      simp only [runEvents, hid]
      exact ih limit s h1 h2
    | some i =>
      by_cases hc : (!i.truthy || s.seen.contains i) = true
      · simp only [runEvents, hid, hc, if_true]
        exact ih limit s h1 h2
      · have hmem : i ∉ s.seen := by
          intro hm
          exact hc (by simp [hm])
        have h1' : (i :: s.seen).Nodup := List.nodup_cons.mpr ⟨hmem, h1⟩
        have h2' : (i :: s.seen).length = (s.matchesAcc ++ [mkApiMatch i ev]).length := by
          simp [List.length_append, h2]
        simp only [runEvents, hid]
        rw [if_neg hc]
        by_cases hl : limit ≤ (s.matchesAcc ++ [mkApiMatch i ev]).length
        · rw [if_pos hl]
          exact ⟨h1', h2'⟩
        · rw [if_neg hl]
          exact ih limit ⟨i :: s.seen, s.matchesAcc ++ [mkApiMatch i ev]⟩ h1' h2'

/-- The endpoint loop preserves the same invariant: across the whole
endpoint list, accepted ids stay pairwise distinct, one per match. -/
theorem runEndpoints_inv : ∀ (eps : List (Option ApiResponse)) (limit : Nat) (s : ProbeState),
    s.seen.Nodup → s.seen.length = s.matchesAcc.length →
    (runEndpoints limit s eps).1.seen.Nodup ∧
    (runEndpoints limit s eps).1.seen.length = (runEndpoints limit s eps).1.matchesAcc.length := by
  intro eps
  induction eps with
  | nil =>
    intro limit s h1 h2
    exact ⟨h1, h2⟩
  | cons ep rest ih =>
    intro limit s h1 h2
    cases ep with
    | none =>
      simp only [runEndpoints]
      exact ih limit s h1 h2
    | some resp =>
      simp only [runEndpoints]
      have hinv := runEvents_inv (apiEventsOf resp) limit s h1 h2
      by_cases h2' : (runEvents limit s (apiEventsOf resp)).2 = true
      · rw [if_pos h2']
        exact hinv
      · rw [if_neg h2']
        exact ih limit _ hinv.1 hinv.2

/-- Every match the extractor's loop appends is a normalizer output. -/
theorem processEvents_mem : ∀ (evs : List RawEvent) (s : ProbeState) (m : Match),
    m ∈ (processEvents s evs).matchesAcc →
    m ∈ s.matchesAcc ∨ ∃ i ev, m = mkApiMatch i ev := by
  intro evs
  induction evs with
  | nil =>
    intro s m hm
    exact Or.inl hm
  | cons ev rest ih =>
    intro s m hm
    cases hid : ev.id with
    | none =>
      simp only [processEvents, hid] at hm
      exact ih s m hm
    | some i =>
      by_cases hc : (!i.truthy || s.seen.contains i) = true
      · simp only [processEvents, hid, hc, if_true] at hm
        exact ih s m hm
      · simp only [processEvents, hid] at hm
        rw [if_neg hc] at hm
        rcases ih _ m hm with hin | hex
        · rcases List.mem_append.mp hin with hl | hr
          · exact Or.inl hl
          · right
            refine ⟨i, ev, ?_⟩
            simpa using List.mem_singleton.mp hr
        · exact Or.inr hex

/-- Every match the DOM extraction loop appends is a DOM-normalizer
output. -/
theorem extractDomAux_mem : ∀ (cs : List DomContainer) (seen : List String) (acc : List Match) (m : Match),
    m ∈ extractDomAux seen acc cs →
    m ∈ acc ∨ ∃ url c, m = mkDomMatch url c := by
  intro cs
  induction cs with
  | nil =>
    intro seen acc m hm
    exact Or.inl hm
  | cons c rest ih =>
    intro seen acc m hm
    cases hurl : containerUrl c with
    | none =>
      simp only [extractDomAux, hurl] at hm
      exact ih seen acc m hm
    | some url =>
      by_cases hc : (url == "" || seen.contains url) = true
      · simp only [extractDomAux, hurl, hc, if_true] at hm
        exact ih seen acc m hm
      · simp only [extractDomAux, hurl] at hm
        rw [if_neg hc] at hm
        rcases ih _ _ m hm with hin | hex
        · rcases List.mem_append.mp hin with hl | hr
          · exact Or.inl hl
          · right
            refine ⟨url, c, ?_⟩
            simpa using List.mem_singleton.mp hr
        · exact Or.inr hex

/-- The dedup-with-limit loop produces an initial segment of the
first-occurrence filter (continued from the same seen-set and
accumulator). -/
theorem dedupLimitAux_leads : ∀ (ms : List Match) (limit : Nat) (seen : List String) (acc : List Match),
    ∃ t, dedupLimitAux limit seen acc ms ++ t = acc ++ dedupFirstAux seen ms := by
  intro ms
  induction ms with
  | nil =>
    intro limit seen acc
    exact ⟨[], by simp [dedupLimitAux, dedupFirstAux]⟩
  | cons m rest ih =>
    intro limit seen acc
    by_cases hc : (seen.contains m.url) = true
    · simpa only [dedupLimitAux, dedupFirstAux, hc, if_true] using ih limit seen acc
    · simp only [dedupLimitAux, dedupFirstAux]
      rw [if_neg hc, if_neg hc]
      by_cases hl : limit ≤ (acc ++ [m]).length
      · rw [if_pos hl]
        exact ⟨dedupFirstAux (m.url :: seen) rest, by simp⟩
      · rw [if_neg hl]
        rcases ih limit (m.url :: seen) (acc ++ [m]) with ⟨t, ht⟩
        refine ⟨t, ?_⟩
        rw [ht]
        simp

/-- The first-occurrence filter is a subsequence of its input. -/
theorem dedupFirstAux_sublist : ∀ (ms : List Match) (seen : List String),
    (dedupFirstAux seen ms).Sublist ms := by
  intro ms
  induction ms with
  | nil =>
    intro seen
    exact List.Sublist.refl []
  | cons m rest ih =>
    intro seen
    by_cases hc : (seen.contains m.url) = true
    · simp only [dedupFirstAux, hc, if_true]
      exact List.Sublist.cons m (ih seen)
    · simp only [dedupFirstAux]
      rw [if_neg hc]
      exact List.Sublist.cons₂ m (ih (m.url :: seen))

/-- The first-occurrence filter emits pairwise-distinct URLs, none of
them already in the seen-set. -/
theorem dedupFirstAux_nodup : ∀ (ms : List Match) (seen : List String),
    ((dedupFirstAux seen ms).map Match.url).Nodup ∧
    ∀ u ∈ (dedupFirstAux seen ms).map Match.url, u ∉ seen := by
  intro ms
  induction ms with
  | nil =>
    intro seen
    constructor
    · simp [dedupFirstAux]
    · simp [dedupFirstAux]
  | cons m rest ih =>
    intro seen
    by_cases hc : (seen.contains m.url) = true
    · simpa only [dedupFirstAux, hc, if_true] using ih seen
    · simp only [dedupFirstAux]
      rw [if_neg hc]
      rcases ih (m.url :: seen) with ⟨hnd, hfresh⟩
      have hm : m.url ∉ seen := by
        intro hmem
        exact hc (by simp [hmem])
      constructor
      · simp only [List.map_cons]
        refine List.nodup_cons.mpr ⟨?_, hnd⟩
        intro hin
        exact (hfresh m.url hin) (List.mem_cons_self _ _)
      · intro u hu
        simp only [List.map_cons, List.mem_cons] at hu
        rcases hu with rfl | hu
        · exact hm
        · intro huseen
          exact (hfresh u hu) (List.mem_cons_of_mem _ huseen)

/-- How the two event-list extractions relate, case by case on the
top-level `events` entry: both fall back to the nested shape when the
key is absent; only the probe falls back when the key holds an empty
array; both take a nonempty array as is. -/
theorem eventsOf_cases (d : ApiResponse) :
    (d.events = none → apiEventsOf d = nestedEventsOf d ∧ extractorEventsOf d = nestedEventsOf d) ∧
    (d.events = some [] → apiEventsOf d = nestedEventsOf d ∧ extractorEventsOf d = []) ∧
    (∀ l, d.events = some l → l ≠ [] → apiEventsOf d = l ∧ extractorEventsOf d = l) := by
  rcases d with ⟨evs, si⟩
  refine ⟨?_, ?_, ?_⟩
  · rintro rfl
    cases si with
    | none => simp [apiEventsOf, extractorEventsOf, nestedEventsOf]
    | some si' =>
      cases hts : si'.tournaments with
      | none => simp [apiEventsOf, extractorEventsOf, nestedEventsOf, hts]
      | some ts => simp [apiEventsOf, extractorEventsOf, nestedEventsOf, hts]
  · rintro rfl
    cases si with
    | none => simp [apiEventsOf, extractorEventsOf, nestedEventsOf]
    | some si' =>
      cases hts : si'.tournaments with
      | none => simp [apiEventsOf, extractorEventsOf, nestedEventsOf, hts]
      | some ts => simp [apiEventsOf, extractorEventsOf, nestedEventsOf, hts]
  · rintro l rfl hne
    have : l.isEmpty = false := by
      cases l with
      | nil => exact absurd rfl hne
      | cons a as => rfl
    simp [apiEventsOf, extractorEventsOf, this]

/-- The active polling time, summed over every recursive attempt, never
exceeds the original budget: each recursion hands down the budget
decremented by at least the polling time already spent. -/
theorem captchaActiveWait_le (env : CaptchaEnv) : ∀ (budget start : Nat),
    captchaActiveWait env start budget ≤ budget := by
  intro budget
  induction budget using Nat.strong_induction_on with
  | _ budget ih =>
    intro start
    unfold captchaActiveWait
    split
    · exact Nat.le_refl budget
    · next t h =>
      have ht : t < budget := List.mem_range.mp (List.mem_of_find?_eq_some h)
      have he : t + 20 ≤ captchaElapsed env start t := by
        simp only [captchaElapsed]
        omega
      split
      · have hrec := ih (budget - captchaElapsed env start t) (by omega)
          (start + captchaElapsed env start t)
        omega
      · omega

/-- Length bound of the dedup-with-limit loop for a positive limit. -/
theorem dedupLimitAux_bound : ∀ (ms : List Match) (limit : Nat) (seen : List String) (acc : List Match),
    acc.length < limit → (dedupLimitAux limit seen acc ms).length ≤ limit := by
  intro ms
  induction ms with
  | nil =>
    intro limit seen acc h
    exact Nat.le_of_lt h
  | cons m rest ih =>
    intro limit seen acc h
    by_cases hc : (seen.contains m.url) = true
    · simp only [dedupLimitAux, hc, if_true]
      exact ih limit seen acc h
    · simp only [dedupLimitAux]
      rw [if_neg hc]
      by_cases hl : limit ≤ (acc ++ [m]).length
      · rw [if_pos hl]
        simp only [List.length_append, List.length_cons, List.length_nil]
        omega
      · rw [if_neg hl]
        apply ih
        simp only [List.length_append, List.length_cons, List.length_nil] at hl ⊢
        omega

/-- With `limit = 0` the dedup loop still appends the first fresh match
before its post-append check fires. -/
theorem dedupLimitAux_zero : ∀ (ms : List Match) (seen : List String) (acc : List Match),
    (dedupLimitAux 0 seen acc ms).length ≤ acc.length + 1 := by
  intro ms
  induction ms with
  | nil =>
    intro seen acc
    exact Nat.le_succ _
  | cons m rest ih =>
    intro seen acc
    by_cases hc : (seen.contains m.url) = true
    · simp only [dedupLimitAux, hc, if_true]
      exact ih seen acc
    · simp only [dedupLimitAux]
      rw [if_neg hc]
      rw [if_pos (Nat.zero_le _)]
      simp [List.length_append]

/-- Every match the probe's inner loop appends is a normalizer output. -/
theorem runEvents_mem : ∀ (evs : List RawEvent) (limit : Nat) (s : ProbeState) (m : Match),
    m ∈ (runEvents limit s evs).1.matchesAcc →
    m ∈ s.matchesAcc ∨ ∃ i ev, m = mkApiMatch i ev := by
  intro evs
  induction evs with
  | nil =>
    intro limit s m hm
    exact Or.inl hm
  | cons ev rest ih =>
    intro limit s m hm
    cases hid : ev.id with
    | none =>
      simp only [runEvents, hid] at hm
      exact ih limit s m hm
    | some i =>
      by_cases hc : (!i.truthy || s.seen.contains i) = true
      · simp only [runEvents, hid, hc, if_true] at hm
        exact ih limit s m hm
      · simp only [runEvents, hid] at hm
        rw [if_neg hc] at hm
        by_cases hl : limit ≤ (s.matchesAcc ++ [mkApiMatch i ev]).length
        · rw [if_pos hl] at hm
          rcases List.mem_append.mp hm with hl' | hr
          · exact Or.inl hl'
          · exact Or.inr ⟨i, ev, List.mem_singleton.mp hr⟩
        · rw [if_neg hl] at hm
          rcases ih limit _ m hm with hin | hex
          · rcases List.mem_append.mp hin with hl' | hr
            · exact Or.inl hl'
            · exact Or.inr ⟨i, ev, List.mem_singleton.mp hr⟩
          · exact Or.inr hex

/-- Every match the endpoint loop accumulates is a normalizer output. -/
theorem runEndpoints_mem : ∀ (eps : List (Option ApiResponse)) (limit : Nat) (s : ProbeState) (m : Match),
    m ∈ (runEndpoints limit s eps).1.matchesAcc →
    m ∈ s.matchesAcc ∨ ∃ i ev, m = mkApiMatch i ev := by
  intro eps
  induction eps with
  | nil =>
    intro limit s m hm
    exact Or.inl hm
  | cons ep rest ih =>
    intro limit s m hm
    cases ep with
    | none =>
      simp only [runEndpoints] at hm
      exact ih limit s m hm
    | some resp =>
      simp only [runEndpoints] at hm
      by_cases h2 : (runEvents limit s (apiEventsOf resp)).2 = true
      · rw [if_pos h2] at hm
        exact runEvents_mem (apiEventsOf resp) limit s m hm
      · rw [if_neg h2] at hm
        rcases ih limit _ m hm with hin | hex
        · exact runEvents_mem (apiEventsOf resp) limit s m hin
        · exact Or.inr hex

/-- C1, counterexample: with `limit = 0` the API probe still probes its
first endpoint, accepts the event there and returns one match, and the
network-capture dedup loop likewise returns one match — both exceed the
claimed bound of zero. -/
theorem claimC1_counterexample :
    ¬ (fetch_live_and_upcoming_matches [some respLive] 0).length ≤ 0 ∧
    ¬ (fetch_matches_with_cookies 0 [match42]).length ≤ 0 := by
  constructor
  · decide
  · decide

/-- C1, amended: for every `limit ≥ 1` each acquisition path returns at
most `limit` matches; the browser path obeys the bound for every limit
including 0; with `limit = 0` the API probe and the network dedup loop
still probe and may return one match, because the limit check runs only
after an append. -/
theorem claimC1_amended :
    (∀ (endpoints : List (Option ApiResponse)) (limit : Nat), 1 ≤ limit →
      (fetch_live_and_upcoming_matches endpoints limit).length ≤ limit) ∧
    (∀ (collected : List Match) (limit : Nat), 1 ≤ limit →
      (fetch_matches_with_cookies limit collected).length ≤ limit) ∧
    (∀ (matches_data : List Match) (limit : Nat),
      (fetch_matches_with_browser limit matches_data).length ≤ limit) ∧
    (∀ (endpoints : List (Option ApiResponse)),
      (fetch_live_and_upcoming_matches endpoints 0).length ≤ 1) ∧
    (∀ (collected : List Match),
      (fetch_matches_with_cookies 0 collected).length ≤ 1) := by
  refine ⟨?_, ?_, ?_, ?_, ?_⟩
  · intro endpoints limit hl
    rcases runEndpoints_bound endpoints limit ⟨[], []⟩ (by simpa using hl) with ⟨_, h⟩ | ⟨_, h⟩
    · exact Nat.le_of_eq h
    · exact Nat.le_of_lt h
  · intro collected limit hl
    exact dedupLimitAux_bound collected limit [] [] (by simpa using hl)
  · intro matches_data limit
    simp only [fetch_matches_with_browser, List.length_take]
    exact Nat.min_le_left _ _
  · intro endpoints
    simpa using runEndpoints_zero_len endpoints ⟨[], []⟩
  · intro collected
    simpa using dedupLimitAux_zero collected [] []

/-- C1, witness of the amended bound at a concrete input. -/
theorem claimC1_witness :
    1 ≤ 3 ∧ (fetch_live_and_upcoming_matches [some respLive] 3).length ≤ 3 :=
  ⟨by decide, claimC1_amended.1 [some respLive] 3 (by decide)⟩

/-- C2: normalization of an API event is total and resolves every
missing nested field — absent `homeTeam` / `awayTeam` / `tournament`
object or absent `name` within it, absent or non-numeric
`startTimestamp`, absent `status` object or absent `description` — to
the documented sentinel for exactly that field, leaving every other
field of the record unchanged (the `never raises` part of the claim is
the totality of `mkApiMatch` over all such inputs). -/
theorem claimC2_normalize_sentinels : ∀ (i : JPrim) (ev : RawEvent),
    mkApiMatch i { ev with homeTeam := none } = { mkApiMatch i ev with home_team := "Unknown" } ∧
    mkApiMatch i { ev with homeTeam := some ⟨none⟩ } = { mkApiMatch i ev with home_team := "Unknown" } ∧
    mkApiMatch i { ev with awayTeam := none } = { mkApiMatch i ev with away_team := "Unknown" } ∧
    mkApiMatch i { ev with awayTeam := some ⟨none⟩ } = { mkApiMatch i ev with away_team := "Unknown" } ∧
    mkApiMatch i { ev with tournament := none } = { mkApiMatch i ev with tournament := "Unknown" } ∧
    mkApiMatch i { ev with tournament := some ⟨none⟩ } = { mkApiMatch i ev with tournament := "Unknown" } ∧
    mkApiMatch i { ev with startTimestamp := none } = { mkApiMatch i ev with start_time := "Unknown" } ∧
    (∀ txt : String, mkApiMatch i { ev with startTimestamp := some (.str txt) } =
      { mkApiMatch i ev with start_time := "Unknown" }) ∧
    mkApiMatch i { ev with status := none } = { mkApiMatch i ev with status := "Scheduled" } ∧
    mkApiMatch i { ev with status := some ⟨none⟩ } = { mkApiMatch i ev with status := "Scheduled" } :=
  fun i ev =>
    ⟨rfl, rfl, rfl, rfl, rfl, rfl, rfl, fun txt => rfl, rfl, rfl⟩

/-- C3, counterexample: on a response whose top-level `events` array is
present but empty next to a populated `sportItem`, the standalone
extractor returns no matches at all, although the nested shape holds
`ev42` and the inline probe does extract it. -/
theorem claimC3_counterexample :
    extract_matches_from_api_response respC3 = [] ∧
    nestedEventsOf respC3 = [ev42] ∧
    fetch_live_and_upcoming_matches [some respC3] 5 = [match42] :=
  ⟨rfl, rfl, rfl⟩

/-- C3, amended: the inline probe falls back to the nested
`sportItem.tournaments[].events` shape whenever the top-level `events`
list is empty (key absent or present-but-empty); the standalone
extractor falls back only when the `events` KEY is absent; on a
nonempty top-level array both use it directly. -/
theorem claimC3_amended : ∀ d : ApiResponse,
    (d.events = none → apiEventsOf d = nestedEventsOf d ∧ extractorEventsOf d = nestedEventsOf d) ∧
    (d.events = some [] → apiEventsOf d = nestedEventsOf d ∧ extractorEventsOf d = []) ∧
    (∀ l, d.events = some l → l ≠ [] → apiEventsOf d = l ∧ extractorEventsOf d = l) :=
  fun d => eventsOf_cases d

/-- C3, witness of the amended claim at concrete inputs covering all
three branches. -/
theorem claimC3_witness :
    (apiEventsOf respC3 = nestedEventsOf respC3 ∧ extractorEventsOf respC3 = []) ∧
    (apiEventsOf { events := none, sportItem := none } =
        nestedEventsOf { events := none, sportItem := none } ∧
      extractorEventsOf { events := none, sportItem := none } =
        nestedEventsOf { events := none, sportItem := none }) ∧
    (apiEventsOf respLive = [ev42] ∧ extractorEventsOf respLive = [ev42]) :=
  ⟨(claimC3_amended respC3).2.1 rfl,
   (claimC3_amended { events := none, sportItem := none }).1 rfl,
   (claimC3_amended respLive).2.2 [ev42] rfl (by decide)⟩

/-- C4: the API probe skips an event whose id is already in the seen
set (identity dedup across the whole endpoint list, since the set is
threaded through); once the accepted count has reached a positive
limit, appending further endpoints changes nothing (the early return
fired); and the spec's scenario — two endpoints repeating event id 42
under limit 5 — yields exactly the one match. -/
theorem claimC4_dedup_early_exit :
    (∀ (limit : Nat) (s : ProbeState) (ev : RawEvent) (rest : List RawEvent) (i : JPrim),
      ev.id = some i → s.seen.contains i = true →
      runEvents limit s (ev :: rest) = runEvents limit s rest) ∧
    (∀ (eps more : List (Option ApiResponse)) (limit : Nat), 1 ≤ limit →
      (fetch_live_and_upcoming_matches eps limit).length = limit →
      fetch_live_and_upcoming_matches (eps ++ more) limit =
        fetch_live_and_upcoming_matches eps limit) ∧
    fetch_live_and_upcoming_matches [some respLive, some respLive] 5 = [match42] := by
  refine ⟨?_, ?_, rfl⟩
  · intro limit s ev rest i hid hc
    simp only [runEvents, hid]
    have hcond : (!i.truthy || s.seen.contains i) = true := by
      rw [hc]
      simp
    rw [if_pos hcond]
  · intro eps more limit hl hlen
    have hb := runEndpoints_bound eps limit ⟨[], []⟩ (by simpa using hl)
    have hdone : (runEndpoints limit ⟨[], []⟩ eps).2 = true := by
      rcases hb with ⟨h2, _⟩ | ⟨h2, hlt⟩
      · exact h2
      · exact absurd hlen (by simp only [fetch_live_and_upcoming_matches]; omega)
    simp only [fetch_live_and_upcoming_matches]
    rw [runEndpoints_append eps more limit ⟨[], []⟩, if_pos hdone]

/-- C4, witness: the skip equation at a state that has already seen id
42, and the early-exit equation for a reached limit of 1. -/
theorem claimC4_witness :
    runEvents 5 ⟨[JPrim.num 42], [match42]⟩ [ev42] =
      runEvents 5 ⟨[JPrim.num 42], [match42]⟩ [] ∧
    fetch_live_and_upcoming_matches ([some respLive] ++ [some respLive]) 1 =
      fetch_live_and_upcoming_matches [some respLive] 1 :=
  ⟨claimC4_dedup_early_exit.1 5 ⟨[JPrim.num 42], [match42]⟩ ev42 [] (JPrim.num 42) rfl (by decide),
   claimC4_dedup_early_exit.2.1 [some respLive] [some respLive] 1 (by decide) (by decide)⟩

/-- C5: `wait_for_captcha_solution` terminates for every environment
and budget (it is a total function of a well-founded recursion on the
decremented remaining budget) and returns `Solved` or `TimedOut`; the
ticks spent actively polling, summed across all recursive re-checks,
never exceed the original budget; and with a zero budget it returns
`TimedOut` immediately (zero polling ticks), whatever the solved
signal does. -/
theorem claimC5_await_resolution :
    (∀ (env : CaptchaEnv) (start budget : Nat),
      wait_for_captcha_solution env start budget = .Solved ∨
      wait_for_captcha_solution env start budget = .TimedOut) ∧
    (∀ (env : CaptchaEnv) (start budget : Nat),
      captchaActiveWait env start budget ≤ budget) ∧
    (∀ (env : CaptchaEnv) (start : Nat),
      wait_for_captcha_solution env start 0 = .TimedOut ∧
      captchaActiveWait env start 0 = 0) := by
  refine ⟨?_, ?_, ?_⟩
  · intro env start budget
    cases hw : wait_for_captcha_solution env start budget with
    | Solved => exact Or.inl rfl
    | TimedOut => exact Or.inr rfl
  · intro env start budget
    exact captchaActiveWait_le env budget start
  · intro env start
    constructor
    · unfold wait_for_captcha_solution
      simp [firstSolvedTick]
    · unfold captchaActiveWait
      simp [firstSolvedTick]

/-- C7: captcha detection is the disjunction of the three snapshot
signals — a matching challenge selector, a challenge phrase in the
lower-cased title, a challenge phrase in the lower-cased content — so
any single positive signal makes it true and all-negative makes it
false, as a pure function of the snapshot. -/
theorem claimC7_detect_disjunction : ∀ p : PageSnapshot,
    is_captcha_present p = (selectorSignal p || titleSignal p || contentSignal p) := by
  intro p
  unfold is_captcha_present selectorSignal titleSignal contentSignal
  by_cases h1 : (captcha_selectors.any p.hasSelector) = true
  · rw [if_pos h1, h1]
    simp
  · rw [if_neg h1]
    rw [Bool.not_eq_true] at h1
    rw [h1]
    by_cases h2 : (captcha_title_terms.any fun t => containsSub (lowerStr p.title) t) = true
    · rw [if_pos h2, h2]
      simp
    · rw [if_neg h2]
      rw [Bool.not_eq_true] at h2
      rw [h2]
      by_cases h3 : (captcha_content_terms.any fun t => containsSub (lowerStr p.content) t) = true
      · rw [if_pos h3, h3]
        simp
      · rw [if_neg h3]
        rw [Bool.not_eq_true] at h3
        rw [h3]
        simp

/-- C6: the deduplicators emit each identity key at most once, in
first-seen order.  For the DOM/network shape the output URLs are
pairwise distinct and the output is an initial part of the
first-occurrence filter, itself a subsequence of the input (so the
retained records keep first-seen order — nothing is sorted); for the
API shape the probe's accepted ids are pairwise distinct, one per
emitted match. -/
theorem claimC6_dedup_first_seen_order :
    (∀ (limit : Nat) (collected : List Match),
      ((fetch_matches_with_cookies limit collected).map Match.url).Nodup) ∧
    (∀ (limit : Nat) (collected : List Match),
      (fetch_matches_with_cookies limit collected).Sublist (dedupFirst collected)) ∧
    (∀ (collected : List Match), (dedupFirst collected).Sublist collected) ∧
    (∀ (eps : List (Option ApiResponse)) (limit : Nat),
      (runEndpoints limit ⟨[], []⟩ eps).1.seen.Nodup ∧
      (runEndpoints limit ⟨[], []⟩ eps).1.seen.length =
        (fetch_live_and_upcoming_matches eps limit).length) := by
  have hsub : ∀ (limit : Nat) (collected : List Match),
      (fetch_matches_with_cookies limit collected).Sublist (dedupFirst collected) := by
    intro limit collected
    rcases dedupLimitAux_leads collected limit [] [] with ⟨t, ht⟩
    simp only [List.nil_append] at ht
    rw [fetch_matches_with_cookies, dedupFirst, ← ht]
    exact List.sublist_append_left _ _
  refine ⟨?_, hsub, ?_, ?_⟩
  · intro limit collected
    have hnd := (dedupFirstAux_nodup collected []).1
    exact List.Nodup.sublist (List.Sublist.map Match.url (hsub limit collected)) hnd
  · intro collected
    exact dedupFirstAux_sublist collected []
  · intro eps limit
    exact runEndpoints_inv eps limit ⟨[], []⟩ List.nodup_nil rfl

/-- C8: every record either normalizer emits is a normalizer
construction, and the constructions populate all six fields with total
strings — each field carries the source-derived value when the source
data is present and exactly the documented sentinel (`"Unknown"`, or
`"Scheduled"` for status) when it is missing, never an absent or null
value. -/
theorem claimC8_fields_populated :
    (∀ (d : ApiResponse) (m : Match), m ∈ extract_matches_from_api_response d →
      ∃ i ev, m = mkApiMatch i ev) ∧
    (∀ (eps : List (Option ApiResponse)) (limit : Nat) (m : Match),
      m ∈ fetch_live_and_upcoming_matches eps limit → ∃ i ev, m = mkApiMatch i ev) ∧
    (∀ (cs : List DomContainer) (m : Match), m ∈ extract_matches_from_page cs →
      ∃ url c, m = mkDomMatch url c) ∧
    (∀ (i : JPrim) (ev : RawEvent),
      (mkApiMatch i ev).home_team = (ev.homeTeam.bind TeamObj.name).getD "Unknown" ∧
      (mkApiMatch i ev).away_team = (ev.awayTeam.bind TeamObj.name).getD "Unknown" ∧
      (mkApiMatch i ev).tournament = (ev.tournament.bind TournObj.name).getD "Unknown" ∧
      (mkApiMatch i ev).status = (ev.status.bind StatusObj.description).getD "Scheduled" ∧
      ((ev.startTimestamp = none ∨ ∃ txt, ev.startTimestamp = some (.str txt)) →
        (mkApiMatch i ev).start_time = "Unknown")) ∧
    (∀ (url : String) (c : DomContainer),
      ((trySelectors c team_names_selectors).length < 2 →
        (mkDomMatch url c).home_team = "Unknown" ∧ (mkDomMatch url c).away_team = "Unknown") ∧
      (firstQuery c tournament_selectors = none → (mkDomMatch url c).tournament = "Unknown") ∧
      (firstQuery c start_time_selectors = none → (mkDomMatch url c).start_time = "Unknown") ∧
      (firstQuery c status_selectors = none → (mkDomMatch url c).status = "Scheduled") ∧
      (mkDomMatch url c).url = url) := by
  refine ⟨?_, ?_, ?_, ?_, ?_⟩
  · intro d m hm
    rcases processEvents_mem (extractorEventsOf d) ⟨[], []⟩ m hm with hin | hex
    · exact absurd hin (List.not_mem_nil m)
    · exact hex
  · intro eps limit m hm
    rcases runEndpoints_mem eps limit ⟨[], []⟩ m hm with hin | hex
    · exact absurd hin (List.not_mem_nil m)
    · exact hex
  · intro cs m hm
    rcases extractDomAux_mem cs [] [] m hm with hin | hex
    · exact absurd hin (List.not_mem_nil m)
    · exact hex
  · intro i ev
    obtain ⟨eid, hT, aT, tN, tS, sT⟩ := ev
    refine ⟨?_, ?_, ?_, ?_, ?_⟩
    · cases hT with
      | none => rfl
      | some t => rfl
    · cases aT with
      | none => rfl
      | some t => rfl
    · cases tN with
      | none => rfl
      | some t => rfl
    · cases sT with
      | none => rfl
      | some t => rfl
    · rintro (h | ⟨txt, h⟩) <;> simp only at h <;> subst h <;> rfl
  · intro url c
    refine ⟨?_, ?_, ?_, ?_, rfl⟩
    · intro hlen
      cases hts : trySelectors c team_names_selectors with
      | nil => simp [mkDomMatch, hts]
      | cons a tl =>
        cases tl with
        | nil => simp [mkDomMatch, hts]
        | cons b tl' =>
          rw [hts] at hlen
          simp at hlen
          omega
    · intro h
      simp [mkDomMatch, h]
    · intro h
      simp [mkDomMatch, h]
    · intro h
      simp [mkDomMatch, h]

/-- C8, witness: the scenario match produced from `respLive` is a
normalizer construction. -/
theorem claimC8_witness : ∃ i ev, match42 = mkApiMatch i ev :=
  claimC8_fields_populated.1 respLive match42
    (by
      rw [show extract_matches_from_api_response respLive = [match42] from rfl]
      exact List.mem_singleton_self _)

/-- C9: an event whose `id` entry is absent or falsy (0 or the empty
string) is silently dropped by both API normalizers — no match is
appended, nothing enters the seen set, the loop state is exactly as if
the event were not there. -/
theorem claimC9_falsy_id_dropped :
    ∀ (limit : Nat) (s : ProbeState) (ev : RawEvent) (rest : List RawEvent),
      (ev.id = none ∨ ∃ i, ev.id = some i ∧ i.truthy = false) →
      runEvents limit s (ev :: rest) = runEvents limit s rest ∧
      processEvents s (ev :: rest) = processEvents s rest := by
  rintro limit s ev rest (hid | ⟨i, hid, htr⟩)
  · constructor
    · simp [runEvents, hid]
    · simp [processEvents, hid]
  · constructor
    · simp [runEvents, hid, htr]
    · simp [processEvents, hid, htr]

/-- C9, witness: the drop equations at the concrete zero-id event. -/
theorem claimC9_witness :
    runEvents 5 ⟨[], []⟩ [ev0] = runEvents 5 ⟨[], []⟩ [] ∧
    processEvents ⟨[], []⟩ [ev0] = processEvents ⟨[], []⟩ [] :=
  claimC9_falsy_id_dropped 5 ⟨[], []⟩ ev0 []
    (Or.inr ⟨JPrim.num 0, rfl, by decide⟩)

/-- C10, counterexample: on a response with a present-but-empty
top-level `events` array next to a populated `sportItem`, the inline
probe (limit 5 ≥ the one event) yields the nested event's match while
the standalone extractor yields nothing — the two normalization
embeddings are not equivalent. -/
theorem claimC10_counterexample :
    fetch_live_and_upcoming_matches [some respC3] 5 = [match42] ∧
    extract_matches_from_api_response respC3 = [] :=
  ⟨rfl, rfl⟩

/-- C10, amended: the two embeddings agree on every response whose
top-level `events` entry is absent or nonempty (given a limit at least
the number of extracted events, at a single successful endpoint); only
the present-but-empty-next-to-`sportItem` shape separates them. -/
theorem claimC10_amended : ∀ (d : ApiResponse) (limit : Nat),
    (d.events = none ∨ ∃ l, d.events = some l ∧ l ≠ []) →
    (apiEventsOf d).length ≤ limit →
    fetch_live_and_upcoming_matches [some d] limit = extract_matches_from_api_response d := by
  intro d limit hshape hlen
  have hagree : apiEventsOf d = extractorEventsOf d := by
    rcases hshape with h | ⟨l, h, hne⟩
    · rcases (eventsOf_cases d).1 h with ⟨h1, h2⟩
      rw [h1, h2]
    · rcases (eventsOf_cases d).2.2 l h hne with ⟨h1, h2⟩
      rw [h1, h2]
  have hrun : (runEvents limit (⟨[], []⟩ : ProbeState) (apiEventsOf d)).1 =
      processEvents ⟨[], []⟩ (apiEventsOf d) :=
    runEvents_eq_processEvents (apiEventsOf d) limit ⟨[], []⟩ (by simpa using hlen)
  simp only [fetch_live_and_upcoming_matches, runEndpoints]
  by_cases h2 : (runEvents limit (⟨[], []⟩ : ProbeState) (apiEventsOf d)).2 = true
  · rw [if_pos h2]
    rw [extract_matches_from_api_response, ← hagree, ← hrun]
  · rw [if_neg h2]
    simp only [runEndpoints]
    rw [extract_matches_from_api_response, ← hagree, ← hrun]

/-- C10, witness: agreement at the scenario response. -/
theorem claimC10_witness :
    fetch_live_and_upcoming_matches [some respLive] 5 =
      extract_matches_from_api_response respLive :=
  claimC10_amended respLive 5 (Or.inr ⟨[ev42], rfl, by decide⟩) (by decide)
